import Mathlib

/-
Verification of the DeepTile tiling/processing/stitching core.

The definitions below are shallow embeddings of the Python source:
  * machine integers are modelled as ℤ, float arithmetic on spec-level
    quantities (tile sizes, overlap fractions) as exact ℚ arithmetic;
  * numpy arrays are modelled as Lean lists or as total functions from
    integer coordinates;
  * code paths that raise exceptions return Option/Except values.
-/

namespace DeepTileSpec

/-! ## Index computation (src/deeptile/utils.py) -/

/-- Round-half-to-even, the rounding used both by numpy's rint and by
Python's round on floats.  Embeds the roundings in
calculate_overlap_size (np.rint) and calculate_indices_1d (round). -/
def rint (q : ℚ) : ℤ :=
  if q - ⌊q⌋ < 1/2 then ⌊q⌋
  else if 1/2 < q - ⌊q⌋ then ⌊q⌋ + 1
  else if 2 ∣ ⌊q⌋ then ⌊q⌋ else ⌊q⌋ + 1

/-- Embeds utils.calculate_overlap_size: overlap_size = rint(tile_size * overlap). -/
def calculate_overlap_size (tile_size : ℤ) (overlap : ℚ) : ℤ :=
  rint ((tile_size : ℚ) * overlap)

/-- Embeds utils.calculate_tiling: tiling = ceil((axis_size - overlap_size) /
(tile_size - overlap_size)).  The numpy code divides in float; we divide in ℚ
(with the Lean convention q / 0 = 0, whose ceiling 0 sends the tile_size =
overlap_size case to the same error outcome as numpy's inf/nan cast). -/
def calculate_tiling (axis_size tile_size overlap_size : ℤ) : ℤ :=
  ⌈((axis_size - overlap_size : ℤ) : ℚ) / ((tile_size - overlap_size : ℤ) : ℚ)⌉

/-- Embeds li = np.arange(tiling) * (tile_size - overlap_size). -/
def tile_starts (tiling tile_size overlap_size : ℤ) : List ℤ :=
  (List.range tiling.toNat).map fun (k : ℕ) => (k : ℤ) * (tile_size - overlap_size)

/-- Embeds ri = np.append(li[:-1] + tile_size, axis_size). -/
def tile_ends (axis_size tile_size : ℤ) (li : List ℤ) : List ℤ :=
  li.dropLast.map (· + tile_size) ++ [axis_size]

/-- Embeds border_indices = np.hstack([0, np.arange(1, tiling) *
(tile_size - overlap_size) + round(0.5 * overlap_size), axis_size]). -/
def border_list (axis_size tiling tile_size overlap_size : ℤ) : List ℤ :=
  0 :: ((List.range (tiling.toNat - 1)).map
      fun (k : ℕ) => ((k : ℤ) + 1) * (tile_size - overlap_size)
        + rint ((1/2 : ℚ) * (overlap_size : ℚ))) ++ [axis_size]

/-- Embeds utils.calculate_indices_1d.  When tiling ≤ 0 the numpy call
np.stack((li, ri), axis=1) raises ValueError (li has length max(tiling, 0)
while ri always has length max(tiling, 1)); this is modelled by none. -/
def calculate_indices_1d (axis_size tile_size : ℤ) (overlap : ℚ) :
    Option (ℤ × List (ℤ × ℤ) × List ℤ) :=
  if calculate_tiling axis_size tile_size (calculate_overlap_size tile_size overlap) ≤ 0
  then none
  else
    some (calculate_tiling axis_size tile_size (calculate_overlap_size tile_size overlap),
      (tile_starts (calculate_tiling axis_size tile_size (calculate_overlap_size tile_size overlap))
          tile_size (calculate_overlap_size tile_size overlap)).zip
        (tile_ends axis_size tile_size
          (tile_starts
            (calculate_tiling axis_size tile_size (calculate_overlap_size tile_size overlap))
            tile_size (calculate_overlap_size tile_size overlap))),
      border_list axis_size
        (calculate_tiling axis_size tile_size (calculate_overlap_size tile_size overlap))
        tile_size (calculate_overlap_size tile_size overlap))

/-! ### Evaluation helpers -/

theorem rint_intCast (n : ℤ) : rint (n : ℚ) = n := by
  unfold rint
  rw [Int.floor_intCast]
  norm_num

theorem rint_eval (q : ℚ) (n : ℤ) (h : q = (n : ℚ)) : rint q = n := by
  rw [h, rint_intCast]

theorem rint_half : rint (1/2 : ℚ) = 0 := by
  unfold rint
  have h : ⌊(1/2 : ℚ)⌋ = 0 := by norm_num
  rw [h]
  norm_num

theorem calculate_indices_1d_eval (axis_size tile_size os t r : ℤ) (overlap : ℚ)
    (hos : calculate_overlap_size tile_size overlap = os)
    (ht : calculate_tiling axis_size tile_size os = t)
    (htpos : 0 < t)
    (hr : rint ((1/2 : ℚ) * (os : ℚ)) = r) :
    calculate_indices_1d axis_size tile_size overlap =
      some (t, (tile_starts t tile_size os).zip
              (tile_ends axis_size tile_size (tile_starts t tile_size os)),
            0 :: ((List.range (t.toNat - 1)).map
                fun (k : ℕ) => ((k : ℤ) + 1) * (tile_size - os) + r) ++ [axis_size]) := by
  unfold calculate_indices_1d
  rw [hos, ht, if_neg (by omega), border_list, hr]

/-- C2: on axis_size=100, tile_size=60, overlap=0.1 the code computes
overlap_size = round(60·0.1) = 6, tiling = ceil((100-6)/(60-6)) = 2, tile
ranges [[0,60],[54,100]] and border points [0, 57, 100], the single interior
point being 54 + round(6/2) = 57. -/
theorem c2_concrete_indices :
    calculate_overlap_size 60 (1/10) = 6 ∧
    calculate_tiling 100 60 6 = 2 ∧
    rint ((1/2 : ℚ) * ((6 : ℤ) : ℚ)) = 3 ∧
    (54 : ℤ) + 3 = 57 ∧
    calculate_indices_1d 100 60 (1/10) =
      some (2, [(0, 60), (54, 100)], [0, 57, 100]) := by
  have h1 : calculate_overlap_size 60 (1/10) = 6 := by
    unfold calculate_overlap_size
    exact rint_eval _ 6 (by norm_num)
  have h2 : calculate_tiling 100 60 6 = 2 := by
    unfold calculate_tiling
    rw [Int.ceil_eq_iff]
    norm_num
  have h3 : rint ((1/2 : ℚ) * ((6 : ℤ) : ℚ)) = 3 := rint_eval _ 3 (by norm_num)
  refine ⟨h1, h2, h3, by norm_num, ?_⟩
  rw [calculate_indices_1d_eval 100 60 6 2 3 (1/10) h1 h2 (by norm_num) h3]
  decide

/-- C1 counterexample: axis_size=2, tile_size=1, overlap_fraction=-4 satisfies
the claim's only hypothesis tile_size > round(tile_size·overlap_fraction)
(1 > -4), yet the returned border_indices [0, 3, 2] are not non-decreasing. -/
theorem c1_counterexample :
    calculate_overlap_size 1 (-4) < 1 ∧
    calculate_indices_1d 2 1 (-4) = some (2, [(0, 1), (5, 2)], [0, 3, 2]) ∧
    ¬ List.Chain' (· ≤ ·) [(0 : ℤ), 3, 2] := by
  have hchain : ¬ List.Chain' (· ≤ ·) [(0 : ℤ), 3, 2] := by
    intro h
    rw [List.chain'_cons, List.chain'_cons] at h
    omega
  have h1 : calculate_overlap_size 1 (-4) = -4 := by
    unfold calculate_overlap_size
    exact rint_eval _ (-4) (by norm_num)
  have h2 : calculate_tiling 2 1 (-4) = 2 := by
    unfold calculate_tiling
    rw [Int.ceil_eq_iff]
    norm_num
  have h3 : rint ((1/2 : ℚ) * ((-4 : ℤ) : ℚ)) = -2 := rint_eval _ (-2) (by norm_num)
  refine ⟨by omega, ?_, hchain⟩
  rw [calculate_indices_1d_eval 2 1 (-4) 2 (-2) (-4) h1 h2 (by norm_num) h3]
  decide

/-- C3 counterexample: axis_size=4, tile_size=1, overlap_fraction=-2 satisfies
tile_size > round(tile_size·overlap_fraction) (1 > -2), yet at the interior
boundary k=1 the returned indices have tile_indices[1][0] = 3 > 2 =
border_indices[1], violating the claimed invariant. -/
theorem c3_counterexample :
    calculate_overlap_size 1 (-2) < 1 ∧
    calculate_indices_1d 4 1 (-2) = some (2, [(0, 1), (3, 4)], [0, 2, 4]) ∧
    ¬ ((([((0 : ℤ), (1 : ℤ)), (3, 4)].getD 1 (0, 0)).1) ≤
        ([(0 : ℤ), 2, 4].getD 1 0)) := by
  have h1 : calculate_overlap_size 1 (-2) = -2 := by
    unfold calculate_overlap_size
    exact rint_eval _ (-2) (by norm_num)
  have h2 : calculate_tiling 4 1 (-2) = 2 := by
    unfold calculate_tiling
    rw [Int.ceil_eq_iff]
    norm_num
  have h3 : rint ((1/2 : ℚ) * ((-2 : ℤ) : ℚ)) = -1 := rint_eval _ (-1) (by norm_num)
  refine ⟨by omega, ?_, by decide⟩
  rw [calculate_indices_1d_eval 4 1 (-2) 2 (-1) (-2) h1 h2 (by norm_num) h3]
  decide

/-- C9 counterexample: axis_size=5, tile_size=10, overlap_fraction=2 has
tile_size = 10 ≤ 20 = round(tile_size·overlap_fraction), but
calculate_indices_1d returns a (degenerate) result instead of failing. -/
theorem c9_counterexample :
    (10 : ℤ) ≤ calculate_overlap_size 10 2 ∧
    calculate_indices_1d 5 10 2 = some (2, [(0, 10), (-10, 5)], [0, 0, 5]) := by
  have h1 : calculate_overlap_size 10 2 = 20 := by
    unfold calculate_overlap_size
    exact rint_eval _ 20 (by norm_num)
  have h2 : calculate_tiling 5 10 20 = 2 := by
    unfold calculate_tiling
    rw [Int.ceil_eq_iff]
    norm_num
  have h3 : rint ((1/2 : ℚ) * ((20 : ℤ) : ℚ)) = 10 := rint_eval _ 10 (by norm_num)
  refine ⟨by omega, ?_⟩
  rw [calculate_indices_1d_eval 5 10 20 2 10 2 h1 h2 (by norm_num) h3]
  decide

/-! ### Bounds on the roundings and the tiling count -/

theorem rint_le_add_half (q : ℚ) : (rint q : ℚ) ≤ q + 1/2 := by
  have h1 : (⌊q⌋ : ℚ) ≤ q := Int.floor_le q
  have h2 : q < ⌊q⌋ + 1 := Int.lt_floor_add_one q
  unfold rint
  split_ifs with ha hb hc
  · linarith
  · push_cast
    linarith
  · linarith
  · push_cast
    linarith

theorem sub_half_le_rint (q : ℚ) : q - 1/2 ≤ (rint q : ℚ) := by
  have h1 : (⌊q⌋ : ℚ) ≤ q := Int.floor_le q
  have h2 : q < ⌊q⌋ + 1 := Int.lt_floor_add_one q
  unfold rint
  split_ifs with ha hb hc
  · linarith
  · push_cast
    linarith
  · linarith
  · push_cast
    linarith

theorem rint_half_nonneg (os : ℤ) (h : 0 ≤ os) : 0 ≤ rint ((1/2 : ℚ) * (os : ℚ)) := by
  have h1 := sub_half_le_rint ((1/2 : ℚ) * (os : ℚ))
  have h2 : (0 : ℚ) ≤ (os : ℚ) := by exact_mod_cast h
  have h3 : (-1 : ℚ) < (rint ((1/2 : ℚ) * (os : ℚ)) : ℚ) := by linarith
  have h4 : (-1 : ℤ) < rint ((1/2 : ℚ) * (os : ℚ)) := by exact_mod_cast h3
  omega

theorem rint_half_le (os : ℤ) (h : 0 ≤ os) : rint ((1/2 : ℚ) * (os : ℚ)) ≤ os := by
  have h1 := rint_le_add_half ((1/2 : ℚ) * (os : ℚ))
  have h2 : (0 : ℚ) ≤ (os : ℚ) := by exact_mod_cast h
  have h3 : (rint ((1/2 : ℚ) * (os : ℚ)) : ℚ) < (os : ℚ) + 1 := by linarith
  have h4 : rint ((1/2 : ℚ) * (os : ℚ)) < os + 1 := by exact_mod_cast h3
  omega

theorem calculate_tiling_pos (axis_size tile_size overlap_size : ℤ)
    (hts : overlap_size < tile_size) (has : overlap_size < axis_size) :
    0 < calculate_tiling axis_size tile_size overlap_size := by
  unfold calculate_tiling
  rw [Int.ceil_pos]
  apply div_pos
  · have : (overlap_size : ℚ) < (axis_size : ℚ) := by exact_mod_cast has
    push_cast
    linarith
  · have : (overlap_size : ℚ) < (tile_size : ℚ) := by exact_mod_cast hts
    push_cast
    linarith

theorem calculate_tiling_as_lt (axis_size tile_size overlap_size : ℤ)
    (hts : overlap_size < tile_size) :
    overlap_size < axis_size ↔ 0 < calculate_tiling axis_size tile_size overlap_size := by
  constructor
  · exact calculate_tiling_pos axis_size tile_size overlap_size hts
  · intro hpos
    unfold calculate_tiling at hpos
    rw [Int.ceil_pos] at hpos
    by_contra hcon
    push_neg at hcon
    have hnum : ((axis_size - overlap_size : ℤ) : ℚ) ≤ 0 := by
      push_cast
      have : (axis_size : ℚ) ≤ (overlap_size : ℚ) := by exact_mod_cast hcon
      linarith
    have hden : (0 : ℚ) < ((tile_size - overlap_size : ℤ) : ℚ) := by
      push_cast
      have : (overlap_size : ℚ) < (tile_size : ℚ) := by exact_mod_cast hts
      linarith
    have := div_nonpos_of_nonpos_of_nonneg hnum (le_of_lt hden)
    linarith

theorem calculate_tiling_key_bound (axis_size tile_size overlap_size : ℤ)
    (hts : overlap_size < tile_size) :
    (calculate_tiling axis_size tile_size overlap_size - 1) * (tile_size - overlap_size) ≤
      axis_size - overlap_size - 1 := by
  set t := calculate_tiling axis_size tile_size overlap_size with htdef
  have h1 : (t - 1 : ℤ) < ⌈((axis_size - overlap_size : ℤ) : ℚ) /
      ((tile_size - overlap_size : ℤ) : ℚ)⌉ := by
    rw [htdef] at *
    unfold calculate_tiling
    omega
  have h2 : ((t - 1 : ℤ) : ℚ) < ((axis_size - overlap_size : ℤ) : ℚ) /
      ((tile_size - overlap_size : ℤ) : ℚ) := Int.lt_ceil.mp h1
  have hden : (0 : ℚ) < ((tile_size - overlap_size : ℤ) : ℚ) := by
    push_cast
    have : (overlap_size : ℚ) < (tile_size : ℚ) := by exact_mod_cast hts
    linarith
  have h3 : ((t - 1 : ℤ) : ℚ) * ((tile_size - overlap_size : ℤ) : ℚ) <
      ((axis_size - overlap_size : ℤ) : ℚ) := (lt_div_iff₀ hden).mp h2
  have h4 : (t - 1) * (tile_size - overlap_size) < axis_size - overlap_size := by
    exact_mod_cast h3
  omega

/-! ### Function form of the computed index lists -/

/-- The k-th border index as a function of k: 0, the interior cut points
k·(tile_size-overlap_size) + round(overlap_size/2), then axis_size. -/
def borderF (axis_size tile_size overlap_size : ℤ) (T : ℕ) (k : ℕ) : ℤ :=
  if k = 0 then 0
  else if k < T then (k : ℤ) * (tile_size - overlap_size)
    + rint ((1/2 : ℚ) * (overlap_size : ℚ))
  else axis_size

theorem border_list_eq_map (axis_size tiling tile_size overlap_size : ℤ)
    (ht : 0 < tiling) :
    border_list axis_size tiling tile_size overlap_size =
      (List.range (tiling.toNat + 1)).map
        (borderF axis_size tile_size overlap_size tiling.toNat) := by
  obtain ⟨m, hm⟩ : ∃ m, tiling.toNat = m + 1 := ⟨tiling.toNat - 1, by omega⟩
  unfold border_list
  rw [hm]
  simp only [Nat.add_sub_cancel]
  rw [List.range_succ_eq_map, List.map_cons, List.map_map, List.range_succ, List.map_append]
  have hhead : borderF axis_size tile_size overlap_size (m + 1) 0 = 0 := by
    simp [borderF]
  have htail1 : (List.range m).map
        (borderF axis_size tile_size overlap_size (m + 1) ∘ Nat.succ) =
      (List.range m).map (fun (k : ℕ) => ((k : ℤ) + 1) * (tile_size - overlap_size)
        + rint ((1/2 : ℚ) * (overlap_size : ℚ))) := by
    apply List.map_congr_left
    intro a ha
    rw [List.mem_range] at ha
    simp only [Function.comp_apply]
    unfold borderF
    rw [if_neg (by omega), if_pos (by omega)]
    push_cast
    ring
  have htail2 : List.map (borderF axis_size tile_size overlap_size (m + 1) ∘ Nat.succ) [m] =
      ([axis_size] : List ℤ) := by
    simp only [List.map_cons, List.map_nil, Function.comp_apply]
    unfold borderF
    rw [if_neg (by omega), if_neg (by omega)]
  rw [hhead, htail1, htail2, List.cons_append]

theorem borderF_zero (axis_size tile_size overlap_size : ℤ) (T : ℕ) :
    borderF axis_size tile_size overlap_size T 0 = 0 := by
  simp [borderF]

theorem borderF_last (axis_size tile_size overlap_size : ℤ) (T : ℕ) (hT : 0 < T) :
    borderF axis_size tile_size overlap_size T T = axis_size := by
  unfold borderF
  rw [if_neg (by omega), if_neg (by omega)]

theorem border_list_length (axis_size tiling tile_size overlap_size : ℤ)
    (ht : 0 < tiling) :
    (border_list axis_size tiling tile_size overlap_size).length = tiling.toNat + 1 := by
  rw [border_list_eq_map axis_size tiling tile_size overlap_size ht]
  simp

theorem border_list_getD (axis_size tiling tile_size overlap_size : ℤ)
    (ht : 0 < tiling) (k : ℕ) (hk : k ≤ tiling.toNat) :
    (border_list axis_size tiling tile_size overlap_size).getD k 0 =
      borderF axis_size tile_size overlap_size tiling.toNat k := by
  rw [border_list_eq_map axis_size tiling tile_size overlap_size ht]
  rw [List.getD_eq_getElem _ _ (by simpa using by omega)]
  rw [List.getElem_map, List.getElem_range]

theorem borderF_step (axis_size tile_size overlap_size : ℤ)
    (h0 : 0 ≤ overlap_size) (hts : overlap_size < tile_size) (has : overlap_size < axis_size)
    (k : ℕ) (hk : k + 1 ≤ (calculate_tiling axis_size tile_size overlap_size).toNat) :
    borderF axis_size tile_size overlap_size
        (calculate_tiling axis_size tile_size overlap_size).toNat k ≤
      borderF axis_size tile_size overlap_size
        (calculate_tiling axis_size tile_size overlap_size).toNat (k + 1) := by
  set t := calculate_tiling axis_size tile_size overlap_size with htdef
  have htpos : 0 < t := calculate_tiling_pos _ _ _ hts has
  have hkey : (t - 1) * (tile_size - overlap_size) ≤ axis_size - overlap_size - 1 :=
    calculate_tiling_key_bound _ _ _ hts
  have hr0 : 0 ≤ rint ((1/2 : ℚ) * (overlap_size : ℚ)) := rint_half_nonneg _ h0
  have hros : rint ((1/2 : ℚ) * (overlap_size : ℚ)) ≤ overlap_size := rint_half_le _ h0
  unfold borderF
  by_cases hk0 : k = 0
  · subst hk0
    rw [if_pos rfl, if_neg (by omega)]
    by_cases h1T : 0 + 1 < t.toNat
    · rw [if_pos h1T]
      have hpos : (1 : ℤ) ≤ tile_size - overlap_size := by omega
      push_cast
      nlinarith
    · rw [if_neg h1T]
      omega
  · rw [if_neg hk0]
    have hkT : k < t.toNat := by omega
    rw [if_pos hkT, if_neg (by omega)]
    by_cases hk1T : k + 1 < t.toNat
    · rw [if_pos hk1T]
      have hpos : (0 : ℤ) ≤ tile_size - overlap_size := by omega
      have hcast : ((k + 1 : ℕ) : ℤ) * (tile_size - overlap_size) =
          (k : ℤ) * (tile_size - overlap_size) + (tile_size - overlap_size) := by
        push_cast
        ring
      rw [hcast]
      linarith
    · rw [if_neg hk1T]
      have hk_eq : (k : ℤ) = t - 1 := by omega
      rw [hk_eq]
      linarith

theorem tile_starts_length (tiling tile_size overlap_size : ℤ) :
    (tile_starts tiling tile_size overlap_size).length = tiling.toNat := by
  simp [tile_starts]

theorem tile_starts_getD (tiling tile_size overlap_size : ℤ) (k : ℕ)
    (hk : k < tiling.toNat) :
    (tile_starts tiling tile_size overlap_size).getD k 0 =
      (k : ℤ) * (tile_size - overlap_size) := by
  unfold tile_starts
  rw [List.getD_eq_getElem _ _ (by simpa using hk)]
  rw [List.getElem_map, List.getElem_range]

theorem tile_starts_dropLast (tiling tile_size overlap_size : ℤ) (ht : 0 < tiling) :
    (tile_starts tiling tile_size overlap_size).dropLast =
      (List.range (tiling.toNat - 1)).map
        (fun (k : ℕ) => (k : ℤ) * (tile_size - overlap_size)) := by
  obtain ⟨m, hm⟩ : ∃ m, tiling.toNat = m + 1 := ⟨tiling.toNat - 1, by omega⟩
  unfold tile_starts
  rw [hm, List.range_succ, List.map_append]
  simp

theorem tile_ends_length (axis_size tiling tile_size overlap_size : ℤ) (ht : 0 < tiling) :
    (tile_ends axis_size tile_size (tile_starts tiling tile_size overlap_size)).length =
      tiling.toNat := by
  unfold tile_ends
  rw [tile_starts_dropLast _ _ _ ht]
  simp
  omega

theorem tile_ends_getD (axis_size tiling tile_size overlap_size : ℤ) (ht : 0 < tiling)
    (k : ℕ) (hk : k < tiling.toNat) :
    (tile_ends axis_size tile_size (tile_starts tiling tile_size overlap_size)).getD k 0 =
      if k < tiling.toNat - 1 then (k : ℤ) * (tile_size - overlap_size) + tile_size
      else axis_size := by
  unfold tile_ends
  rw [tile_starts_dropLast _ _ _ ht, List.map_map]
  by_cases hlt : k < tiling.toNat - 1
  · rw [if_pos hlt]
    rw [List.getD_append _ _ _ _ (by simpa using hlt)]
    rw [List.getD_eq_getElem _ _ (by simpa using hlt)]
    rw [List.getElem_map, List.getElem_range]
    simp
  · rw [if_neg hlt]
    rw [List.getD_append_right _ _ _ _ (by simp; omega)]
    have hidx : k - ((List.range (tiling.toNat - 1)).map
        ((· + tile_size) ∘ fun (k : ℕ) => (k : ℤ) * (tile_size - overlap_size))).length = 0 := by
      simp
      omega
    rw [hidx]
    simp

theorem borderF_interior (axis_size tile_size overlap_size : ℤ) (T k : ℕ)
    (h1 : k ≠ 0) (h2 : k < T) :
    borderF axis_size tile_size overlap_size T k =
      (k : ℤ) * (tile_size - overlap_size) + rint ((1/2 : ℚ) * (overlap_size : ℚ)) := by
  unfold borderF
  rw [if_neg h1, if_pos h2]

theorem calculate_indices_1d_some (axis_size tile_size : ℤ) (overlap : ℚ)
    (htpos : 0 < calculate_tiling axis_size tile_size
      (calculate_overlap_size tile_size overlap)) :
    calculate_indices_1d axis_size tile_size overlap =
      some (calculate_tiling axis_size tile_size (calculate_overlap_size tile_size overlap),
        (tile_starts (calculate_tiling axis_size tile_size
            (calculate_overlap_size tile_size overlap)) tile_size
            (calculate_overlap_size tile_size overlap)).zip
          (tile_ends axis_size tile_size
            (tile_starts (calculate_tiling axis_size tile_size
              (calculate_overlap_size tile_size overlap)) tile_size
              (calculate_overlap_size tile_size overlap))),
        border_list axis_size (calculate_tiling axis_size tile_size
            (calculate_overlap_size tile_size overlap)) tile_size
          (calculate_overlap_size tile_size overlap)) := by
  unfold calculate_indices_1d
  rw [if_neg (by omega)]

theorem ti_zip_getD (axis_size tiling tile_size overlap_size : ℤ) (ht : 0 < tiling)
    (k : ℕ) (hk : k < tiling.toNat) :
    ((tile_starts tiling tile_size overlap_size).zip
        (tile_ends axis_size tile_size (tile_starts tiling tile_size overlap_size))).getD
        k (0, 0) =
      ((tile_starts tiling tile_size overlap_size).getD k 0,
        (tile_ends axis_size tile_size (tile_starts tiling tile_size overlap_size)).getD k 0) := by
  have h1 : k < ((tile_starts tiling tile_size overlap_size).zip
      (tile_ends axis_size tile_size (tile_starts tiling tile_size overlap_size))).length := by
    rw [List.length_zip, tile_starts_length, tile_ends_length _ _ _ _ ht]
    omega
  have h2 : k < (tile_starts tiling tile_size overlap_size).length := by
    rw [tile_starts_length]
    omega
  have h3 : k < (tile_ends axis_size tile_size
      (tile_starts tiling tile_size overlap_size)).length := by
    rw [tile_ends_length _ _ _ _ ht]
    omega
  rw [List.getD_eq_getElem _ _ h1, List.getElem_zip,
    List.getD_eq_getElem _ _ h2, List.getD_eq_getElem _ _ h3]

/-- C1 (amended): assuming additionally that the rounded overlap size is
nonnegative and smaller than axis_size (so that the function returns instead
of raising), calculate_indices_1d returns border_indices that are
non-decreasing, begin with 0, end with axis_size and have length tiling+1,
and every tile range has 0 ≤ start and end ≤ axis_size. -/
theorem c1_border_properties (axis_size tile_size : ℤ) (overlap : ℚ)
    (hpre : calculate_overlap_size tile_size overlap < tile_size)
    (hnn : 0 ≤ calculate_overlap_size tile_size overlap)
    (hlt : calculate_overlap_size tile_size overlap < axis_size) :
    ∃ tiling ti b,
      calculate_indices_1d axis_size tile_size overlap = some (tiling, ti, b) ∧
      List.Chain' (· ≤ ·) b ∧
      b.head? = some 0 ∧
      b.getLast? = some axis_size ∧
      b.length = tiling.toNat + 1 ∧
      ∀ p ∈ ti, 0 ≤ p.1 ∧ p.2 ≤ axis_size := by
  obtain ⟨os, hos⟩ : ∃ x, calculate_overlap_size tile_size overlap = x := ⟨_, rfl⟩
  rw [hos] at hpre hnn hlt
  have htpos : 0 < calculate_tiling axis_size tile_size os :=
    calculate_tiling_pos _ _ _ hpre hlt
  refine ⟨calculate_tiling axis_size tile_size os,
    (tile_starts (calculate_tiling axis_size tile_size os) tile_size os).zip
      (tile_ends axis_size tile_size
        (tile_starts (calculate_tiling axis_size tile_size os) tile_size os)),
    border_list axis_size (calculate_tiling axis_size tile_size os) tile_size os,
    ?_, ?_, ?_, ?_, ?_, ?_⟩
  · rw [calculate_indices_1d_some axis_size tile_size overlap (by rw [hos]; omega), hos]
  · -- non-decreasing border indices
    rw [border_list_eq_map _ _ _ _ htpos, List.chain'_map, List.chain'_range_succ]
    intro m hm
    exact borderF_step axis_size tile_size os hnn hpre hlt m (by omega)
  · simp [border_list]
  · unfold border_list
    rw [List.getLast?_concat]
  · exact border_list_length _ _ _ _ htpos
  · intro p hp
    obtain ⟨hp1, hp2⟩ := List.of_mem_zip hp
    constructor
    · unfold tile_starts at hp1
      rw [List.mem_map] at hp1
      obtain ⟨k, _, hke⟩ := hp1
      rw [← hke]
      exact mul_nonneg (Int.natCast_nonneg k) (by omega)
    · unfold tile_ends at hp2
      rw [tile_starts_dropLast _ _ _ htpos, List.map_map, List.mem_append] at hp2
      rcases hp2 with hin | hin
      · rw [List.mem_map] at hin
        obtain ⟨k, hkmem, hke⟩ := hin
        rw [List.mem_range] at hkmem
        have hkey := calculate_tiling_key_bound axis_size tile_size os hpre
        have hkk : (k : ℤ) ≤ calculate_tiling axis_size tile_size os - 2 := by omega
        have hmul : (k : ℤ) * (tile_size - os) ≤
            (calculate_tiling axis_size tile_size os - 2) * (tile_size - os) :=
          mul_le_mul_of_nonneg_right hkk (by omega)
        have hexp : (calculate_tiling axis_size tile_size os - 2) * (tile_size - os) =
            (calculate_tiling axis_size tile_size os - 1) * (tile_size - os) -
              (tile_size - os) := by ring
        rw [← hke]
        simp only [Function.comp_apply]
        linarith
      · rw [List.mem_singleton] at hin
        rw [hin]

/-- C1 witness: the preconditions of the amended C1 theorem hold at
axis_size=100, tile_size=60, overlap=1/10. -/
theorem c1_witness :
    ∃ tiling ti b,
      calculate_indices_1d 100 60 (1/10) = some (tiling, ti, b) ∧
      List.Chain' (· ≤ ·) b ∧
      b.head? = some 0 ∧
      b.getLast? = some 100 ∧
      b.length = tiling.toNat + 1 ∧
      ∀ p ∈ ti, 0 ≤ p.1 ∧ p.2 ≤ 100 := by
  have h1 : calculate_overlap_size 60 (1/10) = 6 := by
    unfold calculate_overlap_size
    exact rint_eval _ 6 (by norm_num)
  exact c1_border_properties 100 60 (1/10) (by rw [h1]; omega) (by rw [h1]; omega)
    (by rw [h1]; omega)

/-- C3 (amended): assuming additionally a nonnegative rounded overlap size,
whenever calculate_indices_1d returns a result, every interior boundary k
satisfies tile_indices[k][0] ≤ border_indices[k] ≤ border_indices[k+1] ≤
tile_indices[k][1]. -/
theorem c3_interior_invariant (axis_size tile_size : ℤ) (overlap : ℚ)
    (tiling : ℤ) (ti : List (ℤ × ℤ)) (b : List ℤ)
    (hpre : calculate_overlap_size tile_size overlap < tile_size)
    (hnn : 0 ≤ calculate_overlap_size tile_size overlap)
    (hret : calculate_indices_1d axis_size tile_size overlap = some (tiling, ti, b))
    (k : ℕ) (hk1 : 1 ≤ k) (hk2 : k < tiling.toNat) :
    (ti.getD k (0, 0)).1 ≤ b.getD k 0 ∧
    b.getD k 0 ≤ b.getD (k + 1) 0 ∧
    b.getD (k + 1) 0 ≤ (ti.getD k (0, 0)).2 := by
  obtain ⟨os, hos⟩ : ∃ x, calculate_overlap_size tile_size overlap = x := ⟨_, rfl⟩
  rw [hos] at hpre hnn
  unfold calculate_indices_1d at hret
  rw [hos] at hret
  by_cases hc : calculate_tiling axis_size tile_size os ≤ 0
  · rw [if_pos hc] at hret
    exact absurd hret (by simp)
  rw [if_neg hc] at hret
  have htpos : 0 < calculate_tiling axis_size tile_size os := by omega
  have hlt : os < axis_size := (calculate_tiling_as_lt axis_size tile_size os hpre).mpr htpos
  simp only [Option.some.injEq, Prod.mk.injEq] at hret
  obtain ⟨heqt, heqti, heqb⟩ := hret
  subst heqt
  subst heqti
  subst heqb
  have hkT : k < (calculate_tiling axis_size tile_size os).toNat := hk2
  have hr0 : 0 ≤ rint ((1/2 : ℚ) * (os : ℚ)) := rint_half_nonneg _ hnn
  have hros : rint ((1/2 : ℚ) * (os : ℚ)) ≤ os := rint_half_le _ hnn
  rw [ti_zip_getD _ _ _ _ htpos k hkT, tile_starts_getD _ _ _ k hkT,
    tile_ends_getD _ _ _ _ htpos k hkT,
    border_list_getD _ _ _ _ htpos k (by omega),
    border_list_getD _ _ _ _ htpos (k + 1) (by omega)]
  refine ⟨?_, ?_, ?_⟩
  · rw [borderF_interior _ _ _ _ k (by omega) hkT]
    simp only
    linarith
  · exact borderF_step axis_size tile_size os hnn hpre hlt k (by omega)
  · by_cases hk1T : k + 1 < (calculate_tiling axis_size tile_size os).toNat
    · rw [borderF_interior _ _ _ _ (k + 1) (by omega) hk1T]
      rw [if_pos (by omega)]
      simp only
      push_cast
      nlinarith
    · have hkeq : k + 1 = (calculate_tiling axis_size tile_size os).toNat := by omega
      rw [hkeq, borderF_last _ _ _ _ (by omega), if_neg (by omega)]

/-- C3 witness: the invariant at the interior boundary k=1 of the
axis_size=100, tile_size=60, overlap=1/10 configuration. -/
theorem c3_witness :
    (([((0 : ℤ), (60 : ℤ)), (54, 100)].getD 1 (0, 0)).1) ≤ ([(0 : ℤ), 57, 100].getD 1 0) ∧
    ([(0 : ℤ), 57, 100].getD 1 0) ≤ ([(0 : ℤ), 57, 100].getD 2 0) ∧
    ([(0 : ℤ), 57, 100].getD 2 0) ≤ (([((0 : ℤ), (60 : ℤ)), (54, 100)].getD 1 (0, 0)).2) := by
  have h1 : calculate_overlap_size 60 (1/10) = 6 := by
    unfold calculate_overlap_size
    exact rint_eval _ 6 (by norm_num)
  have h2 : calculate_tiling 100 60 6 = 2 := by
    unfold calculate_tiling
    rw [Int.ceil_eq_iff]
    norm_num
  have h3 : rint ((1/2 : ℚ) * ((6 : ℤ) : ℚ)) = 3 := rint_eval _ 3 (by norm_num)
  have hret : calculate_indices_1d 100 60 (1/10) =
      some (2, [(0, 60), (54, 100)], [0, 57, 100]) := by
    rw [calculate_indices_1d_eval 100 60 6 2 3 (1/10) h1 h2 (by norm_num) h3]
    decide
  exact c3_interior_invariant 100 60 (1/10) 2 _ _ (by rw [h1]; omega) (by rw [h1]; omega)
    hret 1 (by omega) (by decide)

/-- C9 (amended): calculate_indices_1d performs no geometry validation.
When tile_size ≤ overlap_size it raises an unrelated ValueError from
np.stack (modelled as none) exactly when overlap_size ≤ axis_size, and it
returns a degenerate result when axis_size < overlap_size and
tile_size < overlap_size. -/
theorem c9_no_validation (axis_size tile_size : ℤ) (overlap : ℚ)
    (hle : tile_size ≤ calculate_overlap_size tile_size overlap) :
    (calculate_overlap_size tile_size overlap ≤ axis_size →
      calculate_indices_1d axis_size tile_size overlap = none) ∧
    (axis_size < calculate_overlap_size tile_size overlap →
      tile_size < calculate_overlap_size tile_size overlap →
      (calculate_indices_1d axis_size tile_size overlap).isSome = true) := by
  obtain ⟨os, hos⟩ : ∃ x, calculate_overlap_size tile_size overlap = x := ⟨_, rfl⟩
  rw [hos] at hle ⊢
  constructor
  · intro hlt
    unfold calculate_indices_1d
    rw [hos]
    have hcond : calculate_tiling axis_size tile_size os ≤ 0 := by
      unfold calculate_tiling
      have hzero : ((0 : ℤ) : ℚ) = 0 := by norm_num
      refine Int.ceil_le.mpr ?_
      rw [hzero]
      by_cases heq : tile_size = os
      · rw [heq, sub_self]
        push_cast
        rw [div_zero]
      · have hlt2 : tile_size < os := lt_of_le_of_ne hle heq
        rw [div_nonpos_iff]
        left
        constructor
        · push_cast
          have : (os : ℚ) ≤ (axis_size : ℚ) := by exact_mod_cast hlt
          linarith
        · push_cast
          have : (tile_size : ℚ) < (os : ℚ) := by exact_mod_cast hlt2
          linarith
    rw [if_pos hcond]
  · intro h1 h2
    unfold calculate_indices_1d
    rw [hos]
    have hcond : 0 < calculate_tiling axis_size tile_size os := by
      unfold calculate_tiling
      rw [Int.ceil_pos, div_pos_iff]
      right
      constructor
      · push_cast
        have : (axis_size : ℚ) < (os : ℚ) := by exact_mod_cast h1
        linarith
      · push_cast
        have : (tile_size : ℚ) < (os : ℚ) := by exact_mod_cast h2
        linarith
    rw [if_neg (by omega)]
    simp

/-- C9 witness: with tile_size=10, overlap=2 (overlap_size 20), the call
fails for axis_size=100 but returns a result for axis_size=5. -/
theorem c9_witness :
    calculate_indices_1d 100 10 2 = none ∧
    (calculate_indices_1d 5 10 2).isSome = true := by
  have h1 : calculate_overlap_size 10 2 = 20 := by
    unfold calculate_overlap_size
    exact rint_eval _ 20 (by norm_num)
  constructor
  · exact (c9_no_validation 100 10 2 (by rw [h1]; omega)).1 (by rw [h1]; omega)
  · exact (c9_no_validation 5 10 2 (by rw [h1]; omega)).2 (by rw [h1]; omega)
      (by rw [h1]; omega)

/-! ## Clean-region stitching (DeepTile._stitch_nd2, utils.array_split_2d,
DeepTile._calculate_stitch_indices in src/deeptile/deeptile.py) -/

section Stitch

variable {α : Type}

/-- A tile produced by utils.array_split_2d: the sub-array of the image
starting at row r0 and column c0 (arrays modelled as total functions). -/
def splitTile (image : ℤ → ℤ → α) (r0 c0 : ℤ) : ℤ → ℤ → α :=
  fun p q => image (r0 + p) (c0 + q)

/-- One assignment stitched[i0:i1, j0:j1] = tile[it:.., jt:..] from
DeepTile._stitch_nd2: inside the rectangle the canvas takes the tile crop
values, outside it is unchanged. -/
def writeCrop (canvas tile : ℤ → ℤ → α) (i0 i1 j0 j1 it jt : ℤ) : ℤ → ℤ → α :=
  fun x y =>
    if i0 ≤ x ∧ x < i1 ∧ j0 ≤ y ∧ y < j1 then tile (it + (x - i0)) (jt + (y - j0))
    else canvas x y

/-- Row-major enumeration of the tile grid (np.ndenumerate order, the
insertion order of the stitch_indices dict). -/
def grid_cells (t0 t1 : ℕ) : List (ℕ × ℕ) :=
  (List.range t0).flatMap fun i => (List.range t1).map fun j => (i, j)

/-- The loop of DeepTile._stitch_nd2 over stitch_indices: for each cell
(n_i, n_j) write the clean crop of its tile at the global clean rectangle.
b0/b1 are the border indices, l0/l1 the tile start offsets; the local crop
start i = i_image - tile_start is from DeepTile._calculate_stitch_indices. -/
def stitch_nd2_from (tiles : ℕ → ℕ → ℤ → ℤ → α) (b0 b1 l0 l1 : ℕ → ℤ)
    (cells : List (ℕ × ℕ)) (canvas : ℤ → ℤ → α) : ℤ → ℤ → α :=
  cells.foldl (fun cv c =>
    writeCrop cv (tiles c.1 c.2) (b0 c.1) (b0 (c.1 + 1)) (b1 c.2) (b1 (c.2 + 1))
      (b0 c.1 - l0 c.1) (b1 c.2 - l1 c.2)) canvas

/-- DeepTile._stitch_nd2: start from np.zeros and write every clean crop. -/
def stitch_nd2 [Zero α] (tiles : ℕ → ℕ → ℤ → ℤ → α) (b0 b1 l0 l1 : ℕ → ℤ)
    (cells : List (ℕ × ℕ)) : ℤ → ℤ → α :=
  stitch_nd2_from tiles b0 b1 l0 l1 cells fun _ _ => 0

/-- Pixel (x, y) lies in the clean rectangle of grid cell c. -/
def covers (b0 b1 : ℕ → ℤ) (c : ℕ × ℕ) (x y : ℤ) : Prop :=
  b0 c.1 ≤ x ∧ x < b0 (c.1 + 1) ∧ b1 c.2 ≤ y ∧ y < b1 (c.2 + 1)

instance (b0 b1 : ℕ → ℤ) (c : ℕ × ℕ) (x y : ℤ) : Decidable (covers b0 b1 c x y) :=
  inferInstanceAs (Decidable (_ ∧ _ ∧ _ ∧ _))

theorem stitch_from_eq (image : ℤ → ℤ → α) (b0 b1 l0 l1 : ℕ → ℤ)
    (cells : List (ℕ × ℕ)) (canvas : ℤ → ℤ → α) (x y : ℤ) :
    stitch_nd2_from (fun ni nj => splitTile image (l0 ni) (l1 nj)) b0 b1 l0 l1 cells
        canvas x y =
      if ∃ c ∈ cells, covers b0 b1 c x y then image x y else canvas x y := by
  induction cells generalizing canvas with
  | nil => simp [stitch_nd2_from]
  | cons c cs ih =>
    have hstep : stitch_nd2_from (fun ni nj => splitTile image (l0 ni) (l1 nj))
        b0 b1 l0 l1 (c :: cs) canvas =
        stitch_nd2_from (fun ni nj => splitTile image (l0 ni) (l1 nj)) b0 b1 l0 l1 cs
          (writeCrop canvas (splitTile image (l0 c.1) (l1 c.2)) (b0 c.1) (b0 (c.1 + 1))
            (b1 c.2) (b1 (c.2 + 1)) (b0 c.1 - l0 c.1) (b1 c.2 - l1 c.2)) := by
      simp [stitch_nd2_from]
    rw [hstep, ih]
    by_cases hcs : ∃ c' ∈ cs, covers b0 b1 c' x y
    · obtain ⟨c', hc', hcov'⟩ := hcs
      rw [if_pos ⟨c', hc', hcov'⟩, if_pos ⟨c', List.mem_cons_of_mem _ hc', hcov'⟩]
    · rw [if_neg hcs]
      unfold writeCrop
      by_cases hcov : covers b0 b1 c x y
      · have hcov' := hcov
        unfold covers at hcov'
        rw [if_pos hcov', if_pos ⟨c, List.mem_cons_self c cs, hcov⟩]
        unfold splitTile
        have ha : l0 c.1 + (b0 c.1 - l0 c.1 + (x - b0 c.1)) = x := by ring
        have hb : l1 c.2 + (b1 c.2 - l1 c.2 + (y - b1 c.2)) = y := by ring
        rw [ha, hb]
      · have hcov2 := hcov
        unfold covers at hcov2
        rw [if_neg hcov2, if_neg ?_]
        rintro ⟨c', hc', hcov'⟩
        rcases List.mem_cons.mp hc' with hceq | hmem
        · exact hcov (hceq ▸ hcov')
        · exact hcs ⟨c', hmem, hcov'⟩

theorem exists_cross (f : ℕ → ℤ) :
    ∀ (n : ℕ) (x : ℤ), f 0 ≤ x → x < f n → ∃ k, k < n ∧ f k ≤ x ∧ x < f (k + 1) := by
  intro n
  induction n with
  | zero =>
    intro x h0 hn
    exact absurd (lt_of_le_of_lt h0 hn) (lt_irrefl (f 0))
  | succ n ih =>
    intro x h0 hn
    by_cases hx : x < f n
    · obtain ⟨k, hk, hk1, hk2⟩ := ih x h0 hx
      exact ⟨k, by omega, hk1, hk2⟩
    · push_neg at hx
      exact ⟨n, by omega, hx, hn⟩

/-- C5: stitching the clean-region-only crops of a split image reproduces
the image on every pixel of its domain.  The tiles are the
array_split_2d pieces of the image along the computed tile indices, each
cropped at its local clean rectangle and written at its global clean
rectangle, exactly as DeepTile._stitch_nd2 does with the stitch indices of
DeepTile._calculate_stitch_indices over a full (all-nonempty) grid. -/
theorem c5_clean_stitch_roundtrip [Zero α]
    (as0 ts0 as1 ts1 : ℤ) (ov0 ov1 : ℚ)
    (t0 t1 : ℤ) (ti0 ti1 : List (ℤ × ℤ)) (b0 b1 : List ℤ)
    (_hpre0 : calculate_overlap_size ts0 ov0 < ts0)
    (_hnn0 : 0 ≤ calculate_overlap_size ts0 ov0)
    (_hpre1 : calculate_overlap_size ts1 ov1 < ts1)
    (_hnn1 : 0 ≤ calculate_overlap_size ts1 ov1)
    (hr0 : calculate_indices_1d as0 ts0 ov0 = some (t0, ti0, b0))
    (hr1 : calculate_indices_1d as1 ts1 ov1 = some (t1, ti1, b1))
    (image : ℤ → ℤ → α) (x y : ℤ)
    (hx0 : 0 ≤ x) (hx1 : x < as0) (hy0 : 0 ≤ y) (hy1 : y < as1) :
    stitch_nd2
      (fun ni nj => splitTile image ((ti0.getD ni (0, 0)).1) ((ti1.getD nj (0, 0)).1))
      (fun k => b0.getD k 0) (fun k => b1.getD k 0)
      (fun ni => (ti0.getD ni (0, 0)).1) (fun nj => (ti1.getD nj (0, 0)).1)
      (grid_cells t0.toNat t1.toNat) x y = image x y := by
  -- extract the components returned on axis 0
  unfold calculate_indices_1d at hr0 hr1
  by_cases hc0 : calculate_tiling as0 ts0 (calculate_overlap_size ts0 ov0) ≤ 0
  · rw [if_pos hc0] at hr0
    exact absurd hr0 (by simp)
  by_cases hc1 : calculate_tiling as1 ts1 (calculate_overlap_size ts1 ov1) ≤ 0
  · rw [if_pos hc1] at hr1
    exact absurd hr1 (by simp)
  rw [if_neg hc0] at hr0
  rw [if_neg hc1] at hr1
  simp only [Option.some.injEq, Prod.mk.injEq] at hr0 hr1
  obtain ⟨heqt0, heqti0, heqb0⟩ := hr0
  obtain ⟨heqt1, heqti1, heqb1⟩ := hr1
  subst heqt0
  subst heqti0
  subst heqb0
  subst heqt1
  subst heqti1
  subst heqb1
  obtain ⟨os0, hos0⟩ : ∃ v, calculate_overlap_size ts0 ov0 = v := ⟨_, rfl⟩
  obtain ⟨os1, hos1⟩ : ∃ v, calculate_overlap_size ts1 ov1 = v := ⟨_, rfl⟩
  rw [hos0] at hc0 ⊢
  rw [hos1] at hc1 ⊢
  have ht0 : 0 < calculate_tiling as0 ts0 os0 := by omega
  have ht1 : 0 < calculate_tiling as1 ts1 os1 := by omega
  -- the border lists start at 0 and end at the axis size
  have hf0_zero : (border_list as0 (calculate_tiling as0 ts0 os0) ts0 os0).getD 0 0 = 0 := by
    rw [border_list_getD _ _ _ _ ht0 0 (by omega), borderF_zero]
  have hf0_last : (border_list as0 (calculate_tiling as0 ts0 os0) ts0 os0).getD
      (calculate_tiling as0 ts0 os0).toNat 0 = as0 := by
    rw [border_list_getD _ _ _ _ ht0 _ (by omega), borderF_last _ _ _ _ (by omega)]
  have hf1_zero : (border_list as1 (calculate_tiling as1 ts1 os1) ts1 os1).getD 0 0 = 0 := by
    rw [border_list_getD _ _ _ _ ht1 0 (by omega), borderF_zero]
  have hf1_last : (border_list as1 (calculate_tiling as1 ts1 os1) ts1 os1).getD
      (calculate_tiling as1 ts1 os1).toNat 0 = as1 := by
    rw [border_list_getD _ _ _ _ ht1 _ (by omega), borderF_last _ _ _ _ (by omega)]
  -- locate the covering cell
  obtain ⟨k0, hk0, hk0a, hk0b⟩ :=
    exists_cross (fun k => (border_list as0 (calculate_tiling as0 ts0 os0) ts0 os0).getD k 0)
      (calculate_tiling as0 ts0 os0).toNat x
      (show (border_list as0 (calculate_tiling as0 ts0 os0) ts0 os0).getD 0 0 ≤ x by
        rw [hf0_zero]
        exact hx0)
      (show x < (border_list as0 (calculate_tiling as0 ts0 os0) ts0 os0).getD
          (calculate_tiling as0 ts0 os0).toNat 0 by
        rw [hf0_last]
        exact hx1)
  obtain ⟨k1, hk1, hk1a, hk1b⟩ :=
    exists_cross (fun k => (border_list as1 (calculate_tiling as1 ts1 os1) ts1 os1).getD k 0)
      (calculate_tiling as1 ts1 os1).toNat y
      (show (border_list as1 (calculate_tiling as1 ts1 os1) ts1 os1).getD 0 0 ≤ y by
        rw [hf1_zero]
        exact hy0)
      (show y < (border_list as1 (calculate_tiling as1 ts1 os1) ts1 os1).getD
          (calculate_tiling as1 ts1 os1).toNat 0 by
        rw [hf1_last]
        exact hy1)
  have hmem : (k0, k1) ∈ grid_cells (calculate_tiling as0 ts0 os0).toNat
      (calculate_tiling as1 ts1 os1).toNat := by
    unfold grid_cells
    rw [List.mem_flatMap]
    exact ⟨k0, List.mem_range.mpr hk0, List.mem_map.mpr ⟨k1, List.mem_range.mpr hk1, rfl⟩⟩
  unfold stitch_nd2
  rw [stitch_from_eq]
  rw [if_pos ⟨(k0, k1), hmem, hk0a, hk0b, hk1a, hk1b⟩]

/-- C5 witness: a 5×5 image with tile_size 4 and overlap 1/4 per axis
(borders [0,3,5]); the stitched clean crops agree with the image at (4,2). -/
theorem c5_witness :
    stitch_nd2 (α := ℤ)
      (fun ni nj => splitTile (fun u v => u + 2 * v)
        (([((0 : ℤ), (4 : ℤ)), (3, 5)].getD ni (0, 0)).1)
        (([((0 : ℤ), (4 : ℤ)), (3, 5)].getD nj (0, 0)).1))
      (fun k => [(0 : ℤ), 3, 5].getD k 0) (fun k => [(0 : ℤ), 3, 5].getD k 0)
      (fun ni => ([((0 : ℤ), (4 : ℤ)), (3, 5)].getD ni (0, 0)).1)
      (fun nj => ([((0 : ℤ), (4 : ℤ)), (3, 5)].getD nj (0, 0)).1)
      (grid_cells (2 : ℤ).toNat (2 : ℤ).toNat) 4 2 = 8 := by
  have h1 : calculate_overlap_size 4 (1/4) = 1 := by
    unfold calculate_overlap_size
    exact rint_eval _ 1 (by norm_num)
  have h2 : calculate_tiling 5 4 1 = 2 := by
    unfold calculate_tiling
    rw [Int.ceil_eq_iff]
    norm_num
  have h3 : rint ((1/2 : ℚ) * ((1 : ℤ) : ℚ)) = 0 := by
    have heq : ((1/2 : ℚ) * ((1 : ℤ) : ℚ)) = (1/2 : ℚ) := by norm_num
    rw [heq, rint_half]
  have hret : calculate_indices_1d 5 4 (1/4) = some (2, [(0, 4), (3, 5)], [0, 3, 5]) := by
    rw [calculate_indices_1d_eval 5 4 1 2 0 (1/4) h1 h2 (by norm_num) h3]
    decide
  have h := c5_clean_stitch_roundtrip 5 4 5 4 (1/4) (1/4) 2 2
    [(0, 4), (3, 5)] [(0, 4), (3, 5)] [0, 3, 5] [0, 3, 5]
    (by rw [h1]; omega) (by rw [h1]; omega) (by rw [h1]; omega) (by rw [h1]; omega)
    hret hret (fun u v => u + 2 * v) 4 2 (by omega) (by omega) (by omega) (by omega)
  simpa using h

end Stitch

/-! ## Border reconciliation (DeepTile._stitch_masks, second pass,
src/deeptile/deeptile.py lines 148-167) -/

/-- The footprint of a region translated into canvas coordinates
(slice start offsets s[0].start + tile_indices[0][n_i, 0] etc.). -/
def translate_pts (pts : List (ℤ × ℤ)) (oi oj : ℤ) : List (ℤ × ℤ) :=
  pts.map fun p => (p.1 + oi, p.2 + oj)

/-- One step of the border-cell loop in DeepTile._stitch_masks: the
footprint pts of one border-touching object (the pixel set of
regions[cell-1].image inside its bounding box), translated by the tile
start offset (oi, oj), is compared against the canvas; if no translated
pixel is already labeled positive, the whole translated footprint is
stamped with total_count + 1 and the counter is incremented, otherwise
nothing changes. -/
def stitch_border_cell (canvas : ℤ × ℤ → ℤ) (pts : List (ℤ × ℤ)) (oi oj : ℤ)
    (total_count : ℤ) : (ℤ × ℤ → ℤ) × ℤ :=
  if (translate_pts pts oi oj).any (fun q => decide (0 < canvas q)) then
    (canvas, total_count)
  else
    (fun q => if q ∈ translate_pts pts oi oj then total_count + 1 else canvas q,
      total_count + 1)

/-- C4: a border-touching object is stamped with the brand-new label
total_count + 1 on exactly its translated footprint if and only if no pixel
of that footprint is already labeled in the canvas; on overlap the canvas
and the counter are left unchanged. -/
theorem c4_border_cell_spec (canvas : ℤ × ℤ → ℤ) (pts : List (ℤ × ℤ))
    (oi oj total_count : ℤ) :
    ((∃ q ∈ translate_pts pts oi oj, 0 < canvas q) →
      stitch_border_cell canvas pts oi oj total_count = (canvas, total_count)) ∧
    ((¬ ∃ q ∈ translate_pts pts oi oj, 0 < canvas q) →
      (stitch_border_cell canvas pts oi oj total_count).2 = total_count + 1 ∧
      (∀ q ∈ translate_pts pts oi oj,
        (stitch_border_cell canvas pts oi oj total_count).1 q = total_count + 1) ∧
      (∀ q, q ∉ translate_pts pts oi oj →
        (stitch_border_cell canvas pts oi oj total_count).1 q = canvas q)) := by
  have hany : (translate_pts pts oi oj).any (fun q => decide (0 < canvas q)) = true ↔
      ∃ q ∈ translate_pts pts oi oj, 0 < canvas q := by
    rw [List.any_eq_true]
    constructor
    · rintro ⟨q, hq, hdec⟩
      exact ⟨q, hq, of_decide_eq_true hdec⟩
    · rintro ⟨q, hq, hpos⟩
      exact ⟨q, hq, decide_eq_true hpos⟩
  constructor
  · intro hover
    unfold stitch_border_cell
    rw [if_pos (hany.mpr hover)]
  · intro hnover
    unfold stitch_border_cell
    rw [if_neg (fun hc => hnover (hany.mp hc))]
    refine ⟨rfl, ?_, ?_⟩
    · intro q hq
      simp only
      rw [if_pos hq]
    · intro q hq
      simp only
      rw [if_neg hq]

/-- C4 witness: on a canvas whose only positive pixel is (0,0), the object
with footprint pixel (1,1) and offset (0,0) does not overlap and is stamped
with the new label 6 = 5 + 1, while the object with footprint pixel (0,0)
overlaps and changes nothing. -/
theorem c4_witness :
    (stitch_border_cell (fun q => if q = ((0 : ℤ), (0 : ℤ)) then 1 else 0)
        [((1 : ℤ), (1 : ℤ))] 0 0 5).2 = 6 ∧
    (stitch_border_cell (fun q => if q = ((0 : ℤ), (0 : ℤ)) then 1 else 0)
        [((0 : ℤ), (0 : ℤ))] 0 0 5) =
      ((fun q => if q = ((0 : ℤ), (0 : ℤ)) then 1 else 0), 5) := by
  constructor
  · have h := (c4_border_cell_spec (fun q => if q = ((0 : ℤ), (0 : ℤ)) then 1 else 0)
      [((1 : ℤ), (1 : ℤ))] 0 0 5).2 (by decide)
    exact h.1
  · exact (c4_border_cell_spec (fun q => if q = ((0 : ℤ), (0 : ℤ)) then 1 else 0)
      [((0 : ℤ), (0 : ℤ))] 0 0 5).1 (by decide)

/-! ## Compatibility check (check_compatability, src/deeptile/core/process.py) -/

/-- A Tiled input as far as check_compatability inspects it: the identity of
its Profile (object identity modelled as a token) and its presence mask. -/
structure TiledM where
  profile : ℕ
  mask : List Bool
deriving DecidableEq

/-- The loop body of check_compatability: profile starts as None and is set
from the first element; each later element is compared by identity; then the
same for the mask (np.any(ts.mask != mask) modelled as list inequality). -/
def check_compat_loop : Option ℕ → Option (List Bool) → List TiledM → Except String Unit
  | _, _, [] => Except.ok ()
  | none, none, ts :: rest => check_compat_loop (some ts.profile) (some ts.mask) rest
  | none, some m, ts :: rest =>
    if ts.mask ≠ m then Except.error "tiles must all share a common mask."
    else check_compat_loop (some ts.profile) (some m) rest
  | some p, none, ts :: rest =>
    if ts.profile ≠ p then Except.error "tiles must all share a common profile."
    else check_compat_loop (some p) (some ts.mask) rest
  | some p, some m, ts :: rest =>
    if ts.profile ≠ p then Except.error "tiles must all share a common profile."
    else if ts.mask ≠ m then Except.error "tiles must all share a common mask."
    else check_compat_loop (some p) (some m) rest

/-- Embeds check_compatability: error on an empty input, otherwise the loop. -/
def check_compatability (tiles : List TiledM) : Except String Unit :=
  if tiles.length = 0 then Except.error "no tiles are given."
  else check_compat_loop none none tiles

/-- Modelled from the spec: the processing entry point validates
compatibility of all Tiled inputs before invoking the user function (the
caller of check_compatability is not part of the examined sources; spec
4.2: "violated compatibility fails fast ... before any user function is
invoked"). -/
def run_with_check (tiles : List TiledM) (func : Unit → ℕ) : Except String ℕ :=
  match check_compatability tiles with
  | Except.error e => Except.error e
  | Except.ok _ => Except.ok (func ())

theorem check_compat_loop_ok_iff (p : ℕ) (m : List Bool) (l : List TiledM) :
    check_compat_loop (some p) (some m) l = Except.ok () ↔
      ∀ ts ∈ l, ts.profile = p ∧ ts.mask = m := by
  induction l with
  | nil => simp [check_compat_loop]
  | cons ts rest ih =>
    unfold check_compat_loop
    by_cases hp : ts.profile = p
    · rw [if_neg (by simpa using hp)]
      by_cases hm : ts.mask = m
      · rw [if_neg (by simpa using hm)]
        rw [ih]
        constructor
        · intro hall ts' hts'
          rcases List.mem_cons.mp hts' with heq | hmem
          · rw [heq]
            exact ⟨hp, hm⟩
          · exact hall ts' hmem
        · intro hall ts' hts'
          exact hall ts' (List.mem_cons_of_mem _ hts')
      · rw [if_pos (by simpa using hm)]
        constructor
        · intro hcon
          exact absurd hcon (by simp)
        · intro hall
          exact absurd (hall ts (List.mem_cons_self _ _)).2 hm
    · rw [if_pos (by simpa using hp)]
      constructor
      · intro hcon
        exact absurd hcon (by simp)
      · intro hall
        exact absurd (hall ts (List.mem_cons_self _ _)).1 hp

/-- C6: for a non-empty input list, check_compatability errors iff some
input differs from the first input in profile identity or presence mask;
and the spec-level caller produces the same outcome for any user function
when the inputs are incompatible (the function is never consulted). -/
theorem c6_compatibility_spec (first : TiledM) (rest : List TiledM) :
    (check_compatability (first :: rest) ≠ Except.ok () ↔
      ∃ ts ∈ first :: rest, ts.profile ≠ first.profile ∨ ts.mask ≠ first.mask) ∧
    (∀ f g : Unit → ℕ,
      (∃ ts ∈ first :: rest, ts.profile ≠ first.profile ∨ ts.mask ≠ first.mask) →
      run_with_check (first :: rest) f = run_with_check (first :: rest) g) := by
  have hstep : check_compatability (first :: rest) =
      check_compat_loop (some first.profile) (some first.mask) rest := by
    unfold check_compatability
    rw [if_neg (by simp)]
    rfl
  have hiff : check_compatability (first :: rest) ≠ Except.ok () ↔
      ∃ ts ∈ first :: rest, ts.profile ≠ first.profile ∨ ts.mask ≠ first.mask := by
    rw [hstep]
    constructor
    · intro hne
      have : ¬ ∀ ts ∈ rest, ts.profile = first.profile ∧ ts.mask = first.mask :=
        fun hall => hne ((check_compat_loop_ok_iff _ _ _).mpr hall)
      push_neg at this
      obtain ⟨ts, hts, hprop⟩ := this
      refine ⟨ts, List.mem_cons_of_mem _ hts, ?_⟩
      by_cases hp : ts.profile = first.profile
      · exact Or.inr (hprop hp)
      · exact Or.inl hp
    · rintro ⟨ts, hts, hdiff⟩ hok
      have hall := (check_compat_loop_ok_iff _ _ _).mp hok
      rcases List.mem_cons.mp hts with heq | hmem
      · rcases hdiff with hd | hd
        · exact hd (by rw [heq])
        · exact hd (by rw [heq])
      · rcases hdiff with hd | hd
        · exact hd (hall ts hmem).1
        · exact hd (hall ts hmem).2
  refine ⟨hiff, ?_⟩
  intro f g hbad
  have hne := hiff.mpr hbad
  unfold run_with_check
  rcases hcc : check_compatability (first :: rest) with e | u
  · rfl
  · exact absurd (by rw [hcc]) hne

/-- C6 witness: two inputs with distinct profile tokens are incompatible;
the outcome is the same for two different user functions. -/
theorem c6_witness :
    run_with_check [⟨0, [true]⟩, ⟨1, [true]⟩] (fun _ => 0) =
      run_with_check [⟨0, [true]⟩, ⟨1, [true]⟩] (fun _ => 1) := by
  exact (c6_compatibility_spec ⟨0, [true]⟩ [⟨1, [true]⟩]).2 (fun _ => 0) (fun _ => 1)
    ⟨⟨1, [true]⟩, by simp, Or.inl (by decide)⟩

/-! ## Scatter semantics (update_tiles, src/deeptile/core/process.py) -/

/-- A numpy array as stored in an output grid cell: either a plain
full-tile result or a stack whose leading axis is the batch axis. -/
inductive NpArr (α : Type) where
  | plain (t : α)
  | stacked (ts : List α)
deriving DecidableEq

/-- processed_tile[None]: insert a new leading axis of size 1. -/
def expand_dims0 (t : α) : NpArr α :=
  NpArr.stacked [t]

/-- np.concatenate((a, b), 0); concatenating arrays whose ranks differ
(a plain tile with a stacked one) raises ValueError, modelled as none. -/
def np_concat0 : NpArr α → NpArr α → Option (NpArr α)
  | NpArr.stacked a, NpArr.stacked b => some (NpArr.stacked (a ++ b))
  | _, _ => none

/-- Embeds update_tiles: with batch_axis the new result gets a leading axis
and is concatenated onto the current cell content (the first scatter finds
None and just stores it), without batch_axis the cell is overwritten. -/
def update_tiles (tiles : ℕ × ℕ → Option (NpArr α)) (tile : α) (index : ℕ × ℕ)
    (batch_axis : Bool) : Option (ℕ × ℕ → Option (NpArr α)) :=
  if batch_axis then
    match tiles index with
    | none => some (Function.update tiles index (some (expand_dims0 tile)))
    | some current =>
      (np_concat0 current (expand_dims0 tile)).map fun a =>
        Function.update tiles index (some a)
  else
    some (Function.update tiles index (some (NpArr.plain tile)))

/-- C7: with batch_axis the first scatter stores the result under a new
leading axis of size 1, every later scatter appends the result (with its
new leading axis) to the existing stack along that axis; without
batch_axis the scatter plainly overwrites the cell. -/
theorem c7_update_tiles_spec (tiles : ℕ × ℕ → Option (NpArr α)) (t : α)
    (index : ℕ × ℕ) :
    (tiles index = none →
      update_tiles tiles t index true =
        some (Function.update tiles index (some (NpArr.stacked [t])))) ∧
    (∀ cur, tiles index = some (NpArr.stacked cur) →
      update_tiles tiles t index true =
        some (Function.update tiles index (some (NpArr.stacked (cur ++ [t]))))) ∧
    (update_tiles tiles t index false =
      some (Function.update tiles index (some (NpArr.plain t)))) := by
  refine ⟨?_, ?_, ?_⟩
  · intro hnone
    unfold update_tiles
    rw [if_pos rfl, hnone]
    rfl
  · intro cur hcur
    unfold update_tiles
    rw [if_pos rfl, hcur]
    rfl
  · unfold update_tiles
    rw [if_neg (by simp)]

/-- C7 witness: starting from an empty cell, the first batch-axis scatter
yields a stack of one, scattering again appends, and a plain scatter
overwrites. -/
theorem c7_witness :
    update_tiles (α := ℕ) (fun _ => none) 7 (0, 0) true =
      some (Function.update (fun _ => none) (0, 0) (some (NpArr.stacked [7]))) ∧
    update_tiles (α := ℕ) (fun _ => some (NpArr.stacked [7])) 8 (0, 0) true =
      some (Function.update (fun _ => some (NpArr.stacked [7])) (0, 0)
        (some (NpArr.stacked [7, 8]))) ∧
    update_tiles (α := ℕ) (fun _ => some (NpArr.stacked [7])) 9 (0, 0) false =
      some (Function.update (fun _ => some (NpArr.stacked [7])) (0, 0)
        (some (NpArr.plain 9))) := by
  refine ⟨?_, ?_, ?_⟩
  · exact (c7_update_tiles_spec (fun _ => none) 7 (0, 0)).1 rfl
  · exact (c7_update_tiles_spec (fun _ => some (NpArr.stacked [7])) 8 (0, 0)).2.1 [7] rfl
  · exact (c7_update_tiles_spec (fun _ => some (NpArr.stacked [7])) 9 (0, 0)).2.2

/-! ## Batch creation and padding (create_batch, utils.array_pad,
src/deeptile/core/process.py lines 205-219) -/

/-- A stacked batch of 2D tiles: the outer list is the leading (batch)
axis, each tile is a list of rows of values. -/
def Tile2 := List (List ℤ)

/-- An all-zero tile of r rows and c columns (the values np.pad fills in). -/
def zero_tile (r c : ℕ) : Tile2 :=
  List.replicate r (List.replicate c (0 : ℤ))

/-- Embeds utils.array_pad on axis 0 of a stacked batch: append padding
zero slices shaped like the existing slices. -/
def array_pad (stacked : List Tile2) (padding : ℕ) : List Tile2 :=
  stacked ++ List.replicate padding
    (zero_tile (stacked.headD []).length ((stacked.headD []).headD []).length)

/-- Embeds the stack-and-pad branch of create_batch for stackable tiles:
batch_tiles = np.stack(selected tiles), then
if pad_final_batch and (batch_tiles[0].shape[0] < batch_size):
    batch_tiles = utils.array_pad(batch_tiles, batch_size - batch_tiles.shape[0], 0).
Note the guard reads batch_tiles[0].shape[0] - the row count of the first
tile - not the batch length batch_tiles.shape[0] used for the pad amount. -/
def create_batch_stack (batch : List Tile2) (pad_final_batch : Bool)
    (batch_size : ℕ) : List Tile2 :=
  if pad_final_batch = true ∧ (batch.headD []).length < batch_size then
    array_pad batch (batch_size - batch.length)
  else batch

/-- A 6×2 tile of ones (leading dimension 6 ≥ batch_size 4). -/
def tile_6x2 : Tile2 :=
  List.replicate 6 (List.replicate 2 (1 : ℤ))

/-- A 3×2 tile of ones (leading dimension 3 < batch_size 4). -/
def tile_3x2 : Tile2 :=
  List.replicate 3 (List.replicate 2 (1 : ℤ))

/-- C8 (code bug): with batch_size=4 and pad_final_batch=True, a final
batch holding a single stackable tile of shape (6,2) is NOT padded (the
guard compares the first tile's row count 6 against batch_size 4), so the
batch stays at 1 stacked tile instead of the documented 4; with a tile of
shape (3,2) the same call does pad to 4, showing the guard reads the tile's
leading dimension rather than the batch length. -/
theorem c8_padding_guard_bug :
    (create_batch_stack [tile_6x2] true 4).length = 1 ∧
    (create_batch_stack [tile_3x2] true 4).length = 4 ∧
    create_batch_stack [tile_6x2] true 4 = [tile_6x2] := by
  refine ⟨?_, ?_, ?_⟩
  · rfl
  · rfl
  · rfl

/-! ## Job ids (Job.__init__, src/deeptile/jobs.py) -/

/-- A Job as far as its id bookkeeping is concerned (the type tag, kwargs,
retained input and output fields do not interact with the id). -/
structure JobM where
  id : ℕ
deriving DecidableEq

/-- Embeds Job.__init__ acting on one Profile's jobs list: the job appends
itself (profile.jobs.append(self)) and then sets
self.id = len(self.profile.jobs), the length after the append. -/
def job_create (jobs : List JobM) : List JobM × JobM :=
  (jobs ++ [⟨jobs.length + 1⟩], ⟨jobs.length + 1⟩)

/-- The jobs list of one Profile after k successive Job constructions. -/
def jobs_after : ℕ → List JobM
  | 0 => []
  | k + 1 => (job_create (jobs_after (k))).1

/-- C10: after any number k of Job constructions on one Profile, the jobs
list is exactly the jobs with ids 1, 2, ..., k in creation order - each
Job's id is its 1-based position - the ids are pairwise distinct, and the
next construction receives id k+1 (the length after its append). -/
theorem c10_job_ids (k : ℕ) :
    jobs_after k = (List.range k).map (fun i => (⟨i + 1⟩ : JobM)) ∧
    ((jobs_after k).map JobM.id).Nodup ∧
    (job_create (jobs_after k)).2.id = k + 1 := by
  have hmain : ∀ n : ℕ, jobs_after n = (List.range n).map (fun i => (⟨i + 1⟩ : JobM)) := by
    intro n
    induction n with
    | zero => rfl
    | succ n ih =>
      unfold jobs_after job_create
      rw [ih]
      simp [List.range_succ]
  refine ⟨hmain k, ?_, ?_⟩
  · rw [hmain k, List.map_map]
    have heq : (JobM.id ∘ fun i => (⟨i + 1⟩ : JobM)) = fun (i : ℕ) => i + 1 := rfl
    rw [heq]
    exact (List.nodup_range k).map (fun a b hab => by omega)
  · unfold job_create
    rw [hmain k]
    simp

end DeepTileSpec
